import Mathlib

/-!
# Verification of the joy-at-meeting React hook library

A shallow embedding of the hooks of the joy-at-meeting package
(`useToggle`, `useCounter`, `useLocalStorage`, `useAsync`, `useDebounce`,
`useThrottle`, `useForm`, `useValidation`) together with proofs of the
behavioural properties stated in the specification.

React's `useState` cells are modelled by explicit state passing: each hook
becomes a structure holding its state, and each callback the hook returns
becomes a function from the state (plus any browser state it touches) to the
new state.  JavaScript values that flow through the hooks are modelled by
small inductive types (`JsValue` for arbitrary form values, `JsonValue` for
JSON-serialisable values); JavaScript exceptions are modelled with `Except`.
-/

/-- A JavaScript value thrown by `throw`: either an `Error` object (with a
`message`) or any other value (kept as its string coercion `String(err)`). -/
inductive ThrownVal where
  | errorObj (message : String)
  | other (repr : String)
deriving Repr, DecidableEq

/-- Models `err instanceof Error ? err.message : fallback` patterns: the
message used when a thrown value is inspected. -/
def ThrownVal.toErrorMessage : ThrownVal → String
  | .errorObj m => m
  | .other r => r

/-! ## useToggle (src/hooks/state/useToggle.ts)

The hook stores one boolean `value` and returns `toggle`, `setTrue`,
`setFalse`, `setValue` callbacks, each a `setValue` on the state cell. -/

/-- State of one `useToggle` instance: the boolean held in its `useState`. -/
structure ToggleState where
  value : Bool
deriving Repr, DecidableEq

/-- Creating the hook: `useState<boolean>(initialValue)`. -/
def useToggle (initialValue : Bool := false) : ToggleState :=
  { value := initialValue }

/-- The `toggle` callback: `setValue(prev => !prev)`. -/
def ToggleState.toggle (s : ToggleState) : ToggleState :=
  { s with value := !s.value }

/-- The `setTrue` callback: `setValue(true)`. -/
def ToggleState.setTrue (s : ToggleState) : ToggleState :=
  { s with value := true }

/-- The `setFalse` callback: `setValue(false)`. -/
def ToggleState.setFalse (s : ToggleState) : ToggleState :=
  { s with value := false }

/-- The `setValue` callback: `setValue(newValue)`. -/
def ToggleState.setSpecificValue (s : ToggleState) (newValue : Bool) : ToggleState :=
  { s with value := newValue }

/-! ## useCounter (first file of src/hooks/state)

JavaScript numbers on the `prev + 1` / `prev - 1` paths act as integers as
long as the count stays in safe range, so the count is modelled by `Int`. -/

/-- State of one `useCounter` instance: its count and the `initialValue`
captured by the `reset` closure. -/
structure CounterState where
  count : Int
  initialValue : Int
deriving Repr, DecidableEq

/-- Creating the hook: `useState<number>(initialValue)` (default 0). -/
def useCounter (initialValue : Int := 0) : CounterState :=
  { count := initialValue, initialValue := initialValue }

/-- The `increment` callback: `setCount(prev => prev + 1)`. -/
def CounterState.increment (s : CounterState) : CounterState :=
  { s with count := s.count + 1 }

/-- The `decrement` callback: `setCount(prev => prev - 1)`. -/
def CounterState.decrement (s : CounterState) : CounterState :=
  { s with count := s.count - 1 }

/-- The `reset` callback: `setCount(initialValue)`. -/
def CounterState.reset (s : CounterState) : CounterState :=
  { s with count := s.initialValue }

/-! ## JavaScript values for form fields

`useForm` field values have TypeScript type `any`; what matters to the code
is JavaScript truthiness (`!value`) and strict equality with `''`.  `JsValue`
covers the primitive values; `NaN` and object identities are outside the
model (no path in the verified code distinguishes them from the cases
below). -/

/-- A JavaScript form-field value. -/
inductive JsValue where
  | undef
  | null
  | bool (b : Bool)
  | num (n : Int)
  | str (s : String)
deriving Repr, DecidableEq

/-- JavaScript truthiness of a `JsValue`: `undefined`, `null`, `false`, `0`
and `''` are falsy, everything else truthy. -/
def JsValue.falsy : JsValue → Bool
  | .undef => true
  | .null => true
  | .bool b => !b
  | .num n => n == 0
  | .str s => s == ""

/-- Models the JavaScript string expression `m || fallback` used for error
messages: an absent or empty (falsy) `m` yields `fallback`. -/
def jsStringOr (m : Option String) (fallback : String) : String :=
  match m with
  | some s => if s == "" then fallback else s
  | none => fallback

/-! ## useForm (src/src/hooks/form/useForm.ts) -/

/-- Per-field configuration (`FieldConfig`).  The custom `validate` callback
may return an error string, return `undefined`, or throw. -/
structure FieldConfig where
  initialValue : Option JsValue := none
  validate : Option (JsValue → Except ThrownVal (Option String)) := none
  required : Bool := false
  requiredMessage : Option String := none

/-- The `errors` state of `useForm`: a JavaScript object mapping field names
to `string | undefined`, modelled as an association list with distinct keys
(`Object.keys` of the model is the list of first components). -/
abbrev FormErrors : Type := List (String × Option String)

/-- The derived `isValid` state: `Object.keys(errors).length === 0`. -/
def isValid (errors : FormErrors) : Bool :=
  (errors.map Prod.fst).length == 0

/-- The `validateField` callback of `useForm`.  `fields` is the field-config
map of the form config, `values` the current form values (`values[name]` is
`undefined` for an absent key, which `JsValue.undef` represents).  Mirrors
the source: the required check fires when `fieldConfig?.required` holds and
`!value || value === ''`; otherwise the custom validator runs inside a
`try`/`catch` whose handler returns `err.message` or `'Validation error'`. -/
def validateField (fields : String → Option FieldConfig)
    (values : String → JsValue) (name : String) : Option String :=
  let fieldConfig := fields name
  let value := values name
  if (match fieldConfig with
      | some cfg => cfg.required
      | none => false)
      && (value.falsy || value == JsValue.str "") then
    some (jsStringOr (match fieldConfig with
      | some cfg => cfg.requiredMessage
      | none => none) (name ++ " is required"))
  else
    match fieldConfig with
    | some cfg =>
      match cfg.validate with
      | some f =>
        match f value with
        | .ok e => e
        | .error err => some (err.toErrorMessage)
      | none => none
    | none => none

/-! ## useValidation (src/hooks/form/useValidation.ts)

`createValidator(rules, stopOnFirst)` returns a rule that runs the given
rules in order.  A rule returns `string | undefined` or throws; the composed
validator returns a rule's error only when the error is truthy AND
`stopOnFirst` holds, returns a thrown rule's message only when `stopOnFirst`
holds, and otherwise falls through to `undefined`. -/

/-- A validation rule applied to a value: returns an optional error message
or throws.  (The optional `fieldName` argument is dropped: no built-in rule
reads it.) -/
abbrev ValidationRule : Type := JsValue → Except ThrownVal (Option String)

/-- The validator produced by `createValidator validationRules stopOnFirst`,
applied to `value`: the loop body of the source, one rule at a time. -/
def createValidator (validationRules : List ValidationRule)
    (stopOnFirst : Bool) (value : JsValue) : Option String :=
  match validationRules with
  | [] => none
  | rule :: rest =>
    match rule value with
    | .ok error =>
      if (match error with
          | some e => !(e == "")
          | none => false)
          && stopOnFirst then
        error
      else
        createValidator rest stopOnFirst value
    | .error err =>
      if stopOnFirst then
        some (err.toErrorMessage)
      else
        createValidator rest stopOnFirst value

/-! ## useAsync (src/src/hooks/async/useAsync.ts)

The hook holds `data`, `error`, `status` state and a `mountedRef`.  The
outcome of the wrapped `asyncFunction` call is passed in explicitly as an
`Except ThrownVal T` (the settled promise).  `execute` returns the updated
state together with what an awaiting caller observes: the result, or the
rethrown (coerced) `Error`. -/

/-- The `AsyncStatus` union type. -/
inductive AsyncStatus where
  | idle
  | pending
  | success
  | error
deriving Repr, DecidableEq

/-- State of one `useAsync` instance (`data`, `error`, `status` cells plus
the `mountedRef` flag).  An `Error` object is modelled by its message. -/
structure AsyncState (T : Type) where
  data : Option T := none
  error : Option String := none
  status : AsyncStatus := .idle
  mounted : Bool := true

/-- Creating the hook: all cells at their initial values, mounted. -/
def useAsync (T : Type) : AsyncState T :=
  {}

/-- The `execute` callback, given the settled outcome of `asyncFunction`.
First `setStatus('pending'); setError(null)`; on fulfilment the result is
stored (if still mounted) and returned; on rejection the thrown value is
coerced to an `Error` (`err instanceof Error ? err : new Error(String(err))`),
stored (if still mounted), and rethrown to the awaiting caller. -/
def AsyncState.execute (s : AsyncState T) (outcome : Except ThrownVal T) :
    AsyncState T × Except String T :=
  let s := { s with status := .pending, error := none }
  match outcome with
  | .ok result =>
    let s := if s.mounted then { s with data := some result, status := .success } else s
    (s, .ok result)
  | .error err =>
    let e := err.toErrorMessage
    let s := if s.mounted then { s with error := some e, status := .error } else s
    (s, .error e)

/-- The `reset` callback. -/
def AsyncState.reset (s : AsyncState T) : AsyncState T :=
  { s with data := none, error := none, status := .idle }

/-- The `immediate` effect: `if (immediate) { execute(); }` — the returned
promise is not awaited, so only the state update of `execute` is kept and
nothing is rethrown to the component. -/
def AsyncState.immediateEffect (s : AsyncState T) (immediate : Bool)
    (outcome : Except ThrownVal T) : AsyncState T :=
  if immediate then (s.execute outcome).1 else s

/-! ## useDebounce (src/src/hooks/performance/useDebounce.ts)

The hook holds `debouncedValue` and, per render of a new `value`, an effect
that schedules `setDebouncedValue(value)` after `delay` ms and cancels the
previously scheduled timer.  Time is modelled by `Nat` milliseconds; the
state carries the pending timer (fire time and value), and delivering an
update first fires any timer already due. -/

/-- State of one `useDebounce` instance: the published `debouncedValue` and
the pending `setTimeout` (absolute fire time paired with the value it will
publish), if one is scheduled. -/
structure DebounceState (T : Type) where
  debounced : T
  timer : Option (Nat × T)
deriving Repr, DecidableEq

/-- Fires the pending timer if its fire time has been reached by `now`:
the timer's `setDebouncedValue(value)` runs. -/
def DebounceState.elapse (s : DebounceState T) (now : Nat) : DebounceState T :=
  match s.timer with
  | some (fireTime, v) =>
    if fireTime ≤ now then { debounced := v, timer := none } else s
  | none => s

/-- Mounting `useDebounce(value, delay)` at time `now`: `debouncedValue`
starts as `value` and the mount effect schedules a timer for `now + delay`. -/
def DebounceState.mount (delay : Nat) (value : T) (now : Nat) : DebounceState T :=
  { debounced := value, timer := some (now + delay, value) }

/-- A re-render with a new `value` at time `now`: any timer already due has
fired beforehand; the effect cleanup clears the previous timer and the
effect schedules a new one for `now + delay`. -/
def DebounceState.update (s : DebounceState T) (delay : Nat) (value : T)
    (now : Nat) : DebounceState T :=
  { s.elapse now with timer := some (now + delay, value) }

/-- The value the component reads at time `now` (all due timers have run). -/
def DebounceState.read (s : DebounceState T) (now : Nat) : T :=
  (s.elapse now).debounced

/-- Runs a timed sequence of value updates (time paired with value) through
the hook, in order. -/
def DebounceState.run (s : DebounceState T) (delay : Nat)
    (updates : List (Nat × T)) : DebounceState T :=
  updates.foldl (fun st u => st.update delay u.2 u.1) s

/-! ## useThrottle (src/hooks/performance/useThrottle.ts)

Modelled from the spec: the package exports `useThrottle` from
`src/hooks/performance/useThrottle.ts`, whose source file is not in the
corpus (only its export in `src/src/index.ts` and the API documentation).
Per the spec and API docs: the throttled value propagates at most once per
`delay` window; `leading` (default true) emits an update arriving outside a
window immediately and opens a new window; `trailing` (default true)
schedules the latest suppressed update for the end of the window; with
`trailing: false`, updates inside the window are simply suppressed. -/

/-- Options bag of `useThrottle` (`UseThrottleOptions`). -/
structure UseThrottleOptions where
  leading : Bool := true
  trailing : Bool := true
deriving Repr, DecidableEq

/-- State of one `useThrottle` instance: the published throttled value, the
start of the currently open delay window (if any), and the value a trailing
timer will publish at the end of the window (if scheduled). -/
structure ThrottleState (T : Type) where
  throttled : T
  windowStart : Option Nat := none
  trailingValue : Option T := none
deriving Repr, DecidableEq

/-- Whether time `now` falls inside the delay window opened at
`windowStart` (no window open means nothing is suppressed). -/
def ThrottleState.inWindow (s : ThrottleState T) (delay : Nat) (now : Nat) : Bool :=
  match s.windowStart with
  | some start => now < start + delay
  | none => false

/-- A new upstream `value` arriving at time `now`.  Outside the window:
with `leading` the value is published immediately and a window opens at
`now`; without `leading` but with `trailing` it is deferred to the end of a
window opened at `now`.  Inside the window: with `trailing` the value
replaces the deferred one; otherwise it is suppressed. -/
def ThrottleState.update (s : ThrottleState T) (delay : Nat)
    (options : UseThrottleOptions) (value : T) (now : Nat) : ThrottleState T :=
  if s.inWindow delay now then
    if options.trailing then
      { s with trailingValue := some value }
    else
      s
  else
    if options.leading then
      { throttled := value, windowStart := some now, trailingValue := none }
    else if options.trailing then
      { s with windowStart := some now, trailingValue := some value }
    else
      s

/-- The end of a delay window at time `now`: once `now` is past the window,
a scheduled trailing value is published (its publication reopens a window). -/
def ThrottleState.elapse (s : ThrottleState T) (delay : Nat) (now : Nat) :
    ThrottleState T :=
  if s.inWindow delay now then
    s
  else
    match s.trailingValue with
    | some v => { throttled := v, windowStart := some now, trailingValue := none }
    | none => { s with windowStart := none }

/-! ## JSON values and the browser's JSON.stringify / JSON.parse

`useLocalStorage` persists values with `JSON.stringify` and reads them back
with `JSON.parse`; both are browser primitives, modelled here over the
JSON-representable values.  `JsonValue.num` is restricted to integers
(floating point is outside the model), and the string escapes cover the
characters `JSON.stringify` escapes with a two-character sequence; other
characters pass through unchanged. -/

/-- A JSON-representable JavaScript value. -/
inductive JsonValue where
  | null
  | bool (b : Bool)
  | num (n : Int)
  | str (s : String)
  | arr (elems : List JsonValue)
  | obj (fields : List (String × JsonValue))
deriving Repr

/-- The decimal digit character for `n < 10`. -/
def digitChar (n : Nat) : Char :=
  match n with
  | 0 => '0'
  | 1 => '1'
  | 2 => '2'
  | 3 => '3'
  | 4 => '4'
  | 5 => '5'
  | 6 => '6'
  | 7 => '7'
  | 8 => '8'
  | 9 => '9'
  | _ => '*'

/-- The numeric value of a decimal digit character, if it is one (code
points 48 through 57). -/
def digitVal (c : Char) : Option Nat :=
  if 48 ≤ c.toNat ∧ c.toNat ≤ 57 then some (c.toNat - 48) else none

/-- Whether a character is a decimal digit. -/
def isDigitChar (c : Char) : Bool :=
  (digitVal c).isSome

/-- Whether the input does not continue with a digit (so a digit run that
ends right before it is maximal). -/
def headNotDigit : List Char → Bool
  | [] => true
  | c :: _ => !(isDigitChar c)

/-- The decimal digits of a natural number, most significant first. -/
def natDigits (n : Nat) : List Char :=
  if _h : n < 10 then
    [digitChar n]
  else
    natDigits (n / 10) ++ [digitChar (n % 10)]
decreasing_by
  exact Nat.div_lt_self (by omega) (by omega)

/-- The decimal representation of an integer. -/
def intChars : Int → List Char
  | .ofNat n => natDigits n
  | .negSucc n => '-' :: natDigits (n + 1)

/-- The two-character JSON escape of a character, or the character itself. -/
def escapeChar (c : Char) : List Char :=
  if c = '"' then ['\\', '"']
  else if c = '\\' then ['\\', '\\']
  else if c = '\n' then ['\\', 'n']
  else if c = '\t' then ['\\', 't']
  else if c = '\r' then ['\\', 'r']
  else [c]

/-- The body of a JSON string literal (escapes applied, no delimiters). -/
def escapeChars : List Char → List Char
  | [] => []
  | c :: cs => escapeChar c ++ escapeChars cs

mutual

/-- The characters `JSON.stringify` produces for a value. -/
def stringifyChars : JsonValue → List Char
  | .null => 'n' :: ['u', 'l', 'l']
  | .bool true => 't' :: ['r', 'u', 'e']
  | .bool false => 'f' :: ['a', 'l', 's', 'e']
  | .num n => intChars n
  | .str s => '"' :: (escapeChars s.data ++ ['"'])
  | .arr [] => ['[', ']']
  | .arr (e :: es) => '[' :: stringifyElems e es
  | .obj [] => ['\x7b', '\x7d']
  | .obj ((k, v) :: fs) => '\x7b' :: stringifyFields k v fs
termination_by v => sizeOf v

/-- The elements of a non-empty array, comma separated, with closing `]`. -/
def stringifyElems (e : JsonValue) (es : List JsonValue) : List Char :=
  stringifyChars e ++
    (match es with
     | [] => [']']
     | e' :: es' => ',' :: stringifyElems e' es')
termination_by sizeOf e + sizeOf es + 1

/-- The fields of a non-empty object (key `k`, value `v`, then `fs`), comma
separated, with closing brace. -/
def stringifyFields (k : String) (v : JsonValue)
    (fs : List (String × JsonValue)) : List Char :=
  ('"' :: (escapeChars k.data ++ ['"', ':'])) ++ stringifyChars v ++
    (match fs with
     | [] => ['\x7d']
     | (k', v') :: fs' => ',' :: stringifyFields k' v' fs')
termination_by sizeOf v + sizeOf fs + 1

end

mutual

/-- A size measure on JSON values, bounding the parser fuel they need. -/
def jsize : JsonValue → Nat
  | .null => 1
  | .bool _ => 1
  | .num _ => 1
  | .str _ => 1
  | .arr es => 1 + jsizeList es
  | .obj fs => 1 + jsizeFields fs

/-- Sum of sizes of array elements, one extra per element. -/
def jsizeList : List JsonValue → Nat
  | [] => 0
  | e :: es => 1 + jsize e + jsizeList es

/-- Sum of sizes of object field values, one extra per field. -/
def jsizeFields : List (String × JsonValue) → Nat
  | [] => 0
  | f :: fs => 1 + jsize f.2 + jsizeFields fs

end

/-- Reads a maximal run of decimal digits, accumulating their value onto
`acc`, and returns the remaining input. -/
def parseDigits (acc : Nat) : List Char → Nat × List Char
  | [] => (acc, [])
  | c :: cs =>
    match digitVal c with
    | some d => parseDigits (acc * 10 + d) cs
    | none => (acc, c :: cs)

/-- Parses a JSON integer (optional minus sign, then digits). -/
def parseNumber : List Char → Option (Int × List Char)
  | [] => none
  | c :: cs =>
    if c = '-' then
      match cs with
      | c' :: _ =>
        if isDigitChar c' then
          let p := parseDigits 0 cs
          some (-(p.1 : Int), p.2)
        else
          none
      | [] => none
    else if isDigitChar c then
      let p := parseDigits 0 (c :: cs)
      some ((p.1 : Int), p.2)
    else
      none

/-- The inverse of `escapeChar` on the character after a backslash. -/
def unescapeChar (c : Char) : Option Char :=
  if c = '"' then some '"'
  else if c = '\\' then some '\\'
  else if c = 'n' then some '\n'
  else if c = 't' then some '\t'
  else if c = 'r' then some '\r'
  else none

/-- Parses the body of a JSON string literal up to and including the closing
quote, returning the unescaped characters and the remaining input. -/
def parseStringBody : List Char → Option (List Char × List Char)
  | [] => none
  | c :: rest =>
    if c = '"' then
      some ([], rest)
    else if c = '\\' then
      match rest with
      | [] => none
      | e :: rest' =>
        match unescapeChar e, parseStringBody rest' with
        | some u, some (s, r) => some (u :: s, r)
        | _, _ => none
    else
      match parseStringBody rest with
      | some (s, r) => some (c :: s, r)
      | none => none

mutual

/-- Parses one JSON value (fuel-indexed model of `JSON.parse`'s recursive
descent). -/
def parseVal : Nat → List Char → Option (JsonValue × List Char)
  | 0, _ => none
  | _ + 1, [] => none
  | fuel + 1, c :: rest =>
    if c = 'n' then
      match rest with
      | 'u' :: 'l' :: 'l' :: r => some (.null, r)
      | _ => none
    else if c = 't' then
      match rest with
      | 'r' :: 'u' :: 'e' :: r => some (.bool true, r)
      | _ => none
    else if c = 'f' then
      match rest with
      | 'a' :: 'l' :: 's' :: 'e' :: r => some (.bool false, r)
      | _ => none
    else if c = '"' then
      match parseStringBody rest with
      | some (s, r) => some (.str (String.mk s), r)
      | none => none
    else if c = '[' then
      match rest with
      | [] => none
      | r0 :: rtail =>
        if r0 = ']' then some (.arr [], rtail)
        else
          match parseElems fuel (r0 :: rtail) with
          | some (es, r) => some (.arr es, r)
          | none => none
    else if c = '\x7b' then
      match rest with
      | [] => none
      | r0 :: rtail =>
        if r0 = '\x7d' then some (.obj [], rtail)
        else
          match parseFields fuel (r0 :: rtail) with
          | some (fs, r) => some (.obj fs, r)
          | none => none
    else
      match parseNumber (c :: rest) with
      | some (n, r) => some (.num n, r)
      | none => none

/-- Parses the elements of a non-empty array up to the closing `]`. -/
def parseElems : Nat → List Char → Option (List JsonValue × List Char)
  | 0, _ => none
  | fuel + 1, l =>
    match parseVal fuel l with
    | some (v, r) =>
      match r with
      | ',' :: r' =>
        match parseElems fuel r' with
        | some (es, r'') => some (v :: es, r'')
        | none => none
      | ']' :: r' => some ([v], r')
      | _ => none
    | none => none

/-- Parses the fields of a non-empty object up to the closing brace. -/
def parseFields : Nat → List Char → Option (List (String × JsonValue) × List Char)
  | 0, _ => none
  | fuel + 1, l =>
    match l with
    | '"' :: rest =>
      match parseStringBody rest with
      | some (k, r) =>
        match r with
        | ':' :: r' =>
          match parseVal fuel r' with
          | some (v, r'') =>
            match r'' with
            | ',' :: r3 =>
              match parseFields fuel r3 with
              | some (fs, r4) => some ((String.mk k, v) :: fs, r4)
              | none => none
            | '\x7d' :: r3 => some ([(String.mk k, v)], r3)
            | _ => none
          | none => none
        | _ => none
      | none => none
    | _ => none

end

/-- Model of the browser's `JSON.stringify` on JSON-representable values. -/
def JSON.stringify (v : JsonValue) : String :=
  String.mk (stringifyChars v)

/-- Model of the browser's `JSON.parse`: parses the whole string as one JSON
value, `none` modelling a thrown `SyntaxError`. -/
def JSON.parse (s : String) : Option JsonValue :=
  match parseVal (s.data.length + 1) s.data with
  | some (v, []) => some v
  | _ => none

/-! ## useLocalStorage (src/hooks/state/useLocalStorage.ts)

`window.localStorage` is modelled as a string-to-string map plus a `failing`
flag under which every access throws (quota exceeded, storage disabled);
the hook's `try`/`catch` handlers appear as the `.error` branches below.
The hook state is the `useState` cell plus the `key`/`initialValue` captured
by its closures. -/

/-- The browser's `window.localStorage`. -/
structure BrowserStorage where
  items : String → Option String
  failing : Bool := false

/-- `localStorage.getItem(key)`: throws when access fails. -/
def BrowserStorage.getItem (store : BrowserStorage) (key : String) :
    Except String (Option String) :=
  if store.failing then .error "storage access failed"
  else .ok (store.items key)

/-- `localStorage.setItem(key, value)`: throws when access fails. -/
def BrowserStorage.setItem (store : BrowserStorage) (key value : String) :
    Except String BrowserStorage :=
  if store.failing then .error "storage access failed"
  else .ok { store with items := fun k => if k = key then some value else store.items k }

/-- `localStorage.removeItem(key)`: throws when access fails. -/
def BrowserStorage.removeItem (store : BrowserStorage) (key : String) :
    Except String BrowserStorage :=
  if store.failing then .error "storage access failed"
  else .ok { store with items := fun k => if k = key then none else store.items k }

/-- State of one `useLocalStorage` instance. -/
structure LocalStorageHook where
  key : String
  initialValue : JsonValue
  value : JsonValue

/-- Mounting `useLocalStorage(key, initialValue)`: the lazy `useState`
initialiser reads `localStorage.getItem(key)` inside `try`/`catch`; a stored
item is parsed (`item ? JSON.parse(item) : initialValue`, so an empty —
falsy — item string also falls back), and any failure (access or parse)
falls back to `initialValue` after a `console.warn`. -/
def useLocalStorage (store : BrowserStorage) (key : String)
    (initialValue : JsonValue) : LocalStorageHook :=
  let value :=
    match store.getItem key with
    | .error _ => initialValue
    | .ok none => initialValue
    | .ok (some item) =>
      if item = "" then initialValue
      else
        match JSON.parse item with
        | some v => v
        | none => initialValue
  { key := key, initialValue := initialValue, value := value }

/-- The argument of the hook's `setValue`: a plain value or an updater
function (`newValue instanceof Function`). -/
inductive SetValueArg where
  | plain (v : JsonValue)
  | updater (f : JsonValue → JsonValue)

/-- The `setValue` callback (`setStoredValue`): computes `valueToStore`,
updates the React state, and writes `JSON.stringify(valueToStore)` to
storage; a storage failure is caught and logged after the state update, so
the new state survives while the store is unchanged. -/
def LocalStorageHook.setStoredValue (h : LocalStorageHook)
    (store : BrowserStorage) (newValue : SetValueArg) :
    LocalStorageHook × BrowserStorage :=
  let valueToStore :=
    match newValue with
    | .plain v => v
    | .updater f => f h.value
  let h' := { h with value := valueToStore }
  match store.setItem h.key (JSON.stringify valueToStore) with
  | .ok store' => (h', store')
  | .error _ => (h', store)

/-- The `removeValue` callback (`removeStoredValue`): removes the key from
storage and resets the state to `initialValue`; if the removal throws, the
catch runs before `setValue(initialValue)` is reached, so the state is
unchanged. -/
def LocalStorageHook.removeStoredValue (h : LocalStorageHook)
    (store : BrowserStorage) : LocalStorageHook × BrowserStorage :=
  match store.removeItem h.key with
  | .ok store' => ({ h with value := h.initialValue }, store')
  | .error _ => (h, store)

/-- A `StorageEvent` as delivered to the `storage` listener: `key` and
`newValue` are `null` able; `newValue` is `null` when the key was removed
in the other tab. -/
structure StorageEvent where
  key : Option String
  newValue : Option String

/-- The cross-tab `storage` listener `handleStorageChange`: on an event for
this hook's key with a non-`null` `newValue`, the parsed value is stored;
a parse failure is caught and logged, leaving the state unchanged; all
other events are ignored. -/
def LocalStorageHook.handleStorageChange (h : LocalStorageHook)
    (e : StorageEvent) : LocalStorageHook :=
  if e.key = some h.key then
    match e.newValue with
    | some nv =>
      match JSON.parse nv with
      | some v => { h with value := v }
      | none => h
    | none => h
  else
    h

/-! ## Concrete instances used to evaluate the theorems -/

/-- A validation rule that always reports the error `"boom"`. -/
def boomRule : ValidationRule := fun _ => .ok (some "boom")

/-- A field-config map with one required field `email` (no custom message). -/
def exFields : String → Option FieldConfig :=
  fun name => if name = "email" then some { required := true } else none

/-- Form values where every field is the empty string. -/
def exValues : String → JsValue := fun _ => JsValue.str ""

/-- An empty, healthy `localStorage`. -/
def emptyStore : BrowserStorage := { items := fun _ => none }

/-- A `localStorage` whose every access throws. -/
def failingStore : BrowserStorage := { items := fun _ => none, failing := true }

/-- A `localStorage` holding `"0"` under the key `theme`. -/
def seededStore : BrowserStorage :=
  { items := fun k => if k = "theme" then some "0" else none }

/-- A cross-tab event reporting that `theme` was removed in another tab. -/
def removalEvent : StorageEvent := { key := some "theme", newValue := none }

/-- Whether a hook's state matches what is stored under its key: a string is
stored there and parses to exactly the hook's current value. -/
def reflectsStored (h : LocalStorageHook) (stored : Option String) : Prop :=
  ∃ s, stored = some s ∧ JSON.parse s = some h.value

/-! ## Theorems -/

/-- C8: toggling twice returns the boolean to its initial value, and
`setTrue` / `setFalse` are idempotent — any positive number of calls leaves
the value `true` (resp. `false`), the same state as one call. -/
theorem useToggle_toggle_involutive_sets_idempotent :
    (∀ b : Bool, ((useToggle b).toggle.toggle).value = b)
    ∧ (∀ n : Nat, 1 ≤ n → ∀ s : ToggleState,
        ToggleState.setTrue^[n] s = s.setTrue ∧ s.setTrue.value = true)
    ∧ (∀ n : Nat, 1 ≤ n → ∀ s : ToggleState,
        ToggleState.setFalse^[n] s = s.setFalse ∧ s.setFalse.value = false) := by
  refine ⟨fun b => ?_, fun n hn s => ⟨?_, rfl⟩, fun n hn s => ⟨?_, rfl⟩⟩
  · simp [useToggle, ToggleState.toggle]
  · obtain ⟨m, rfl⟩ : ∃ m, n = m + 1 := ⟨n - 1, by omega⟩
    clear hn
    induction m generalizing s with
    | zero => simp
    | succ k ih =>
      rw [Function.iterate_succ_apply, ih]
      rfl
  · obtain ⟨m, rfl⟩ : ∃ m, n = m + 1 := ⟨n - 1, by omega⟩
    clear hn
    induction m generalizing s with
    | zero => simp
    | succ k ih =>
      rw [Function.iterate_succ_apply, ih]
      rfl

/-- Witness for C8 at `b = true`, `n = 3`. -/
theorem useToggle_toggle_involutive_sets_idempotent_witness :
    ((useToggle true).toggle.toggle).value = true
    ∧ (ToggleState.setTrue^[3] ⟨false⟩ = ToggleState.setTrue ⟨false⟩
        ∧ (ToggleState.setTrue ⟨false⟩).value = true)
    ∧ (ToggleState.setFalse^[3] ⟨true⟩ = ToggleState.setFalse ⟨true⟩
        ∧ (ToggleState.setFalse ⟨true⟩).value = false) :=
  ⟨useToggle_toggle_involutive_sets_idempotent.1 true,
   useToggle_toggle_involutive_sets_idempotent.2.1 3 (by decide) ⟨false⟩,
   useToggle_toggle_involutive_sets_idempotent.2.2 3 (by decide) ⟨true⟩⟩

/-- C9: `useCounter(5).increment()` then `.decrement()` returns the count to
5, and in general `increment` followed by `decrement` is the identity on the
counter state. -/
theorem useCounter_increment_decrement_id :
    ((useCounter 5).increment.decrement.count = 5)
    ∧ (∀ s : CounterState, s.increment.decrement = s) := by
  constructor
  · rfl
  · intro s
    simp [CounterState.increment, CounterState.decrement]

/-- C10: a validator composed by `createValidator` with
`stopOnFirstError = false` always resolves to `undefined`, whatever the
rules report; an error string is only ever returned when
`stopOnFirstError = true`. -/
theorem createValidator_false_never_errors :
    (∀ (rules : List ValidationRule) (value : JsValue),
        createValidator rules false value = none)
    ∧ (∀ (rules : List ValidationRule) (stopOnFirst : Bool) (value : JsValue)
        (e : String), createValidator rules stopOnFirst value = some e →
        stopOnFirst = true) := by
  have h1 : ∀ (rules : List ValidationRule) (value : JsValue),
      createValidator rules false value = none := by
    intro rules value
    induction rules with
    | nil => rfl
    | cons rule rest ih =>
      rw [createValidator]
      cases rule value with
      | ok e => simpa using ih
      | error err => simpa using ih
  refine ⟨h1, fun rules stopOnFirst value e he => ?_⟩
  cases stopOnFirst with
  | false => rw [h1 rules value] at he; cases he
  | true => rfl

/-- Witness for C10: a rule that reports `"boom"` is swallowed with
`stopOnFirstError = false`, and the returned-error implication at
`stopOnFirst = true`. -/
theorem createValidator_false_never_errors_witness :
    createValidator [boomRule] false JsValue.null = none ∧ true = true :=
  ⟨createValidator_false_never_errors.1 [boomRule] JsValue.null,
   createValidator_false_never_errors.2 [boomRule] true JsValue.null "boom" rfl⟩

/-- C1: in `useForm`, validating a `required` field whose current value is
empty (the empty string, or undefined) yields exactly the configured
`requiredMessage` — falling back to `"<name> is required"` when that is
absent or empty — and this error is a non-empty string; `formState.isValid`
is true iff the `errors` object is empty. -/
theorem useForm_required_empty_error_isValid_iff :
    (∀ (fields : String → Option FieldConfig) (values : String → JsValue)
        (name : String) (cfg : FieldConfig),
        fields name = some cfg → cfg.required = true →
        (values name = JsValue.str "" ∨ values name = JsValue.undef) →
        ∃ e, validateField fields values name = some e ∧ e ≠ ""
          ∧ e = jsStringOr cfg.requiredMessage (name ++ " is required"))
    ∧ (∀ errors : FormErrors, isValid errors = true ↔ errors = []) := by
  constructor
  · intro fields values name cfg hcfg hreq hempty
    refine ⟨jsStringOr cfg.requiredMessage (name ++ " is required"), ?_, ?_, rfl⟩
    · rw [validateField]
      have hfalsy : (values name).falsy = true := by
        rcases hempty with h | h <;> rw [h] <;> rfl
      simp [hcfg, hreq, hfalsy]
    · have h12 : " is required".length = 12 := rfl
      have hlen : (name ++ " is required").length = name.length + 12 := by
        rw [String.length_append, h12]
      intro habs
      rcases hmsg : cfg.requiredMessage with _ | s
      · rw [hmsg] at habs
        simp only [jsStringOr] at habs
        have := congrArg String.length habs
        rw [hlen] at this
        simp at this
      · rw [hmsg] at habs
        simp only [jsStringOr] at habs
        by_cases hs : s == ""
        · rw [if_pos hs] at habs
          have := congrArg String.length habs
          rw [hlen] at this
          simp at this
        · rw [if_neg hs] at habs
          exact hs (by rw [habs]; rfl)
  · intro errors
    simp [isValid]

/-- Witness for C1: the required field `email` with empty value reports
`"email is required"`, and `isValid` on the empty error map. -/
theorem useForm_required_empty_error_isValid_iff_witness :
    (∃ e, validateField exFields exValues "email" = some e ∧ e ≠ ""
      ∧ e = jsStringOr ({ required := true } : FieldConfig).requiredMessage
          ("email" ++ " is required"))
    ∧ (isValid [] = true ↔ ([] : FormErrors) = []) :=
  ⟨useForm_required_empty_error_isValid_iff.1 exFields exValues "email"
      { required := true } rfl rfl (Or.inl rfl),
   useForm_required_empty_error_isValid_iff.2 []⟩

/-- C3: when the wrapped async function rejects during `execute` on a
mounted `useAsync` hook, the failure is captured in the hook's state — the
`error` field holds the coerced `Error` and `status` becomes `'error'` —
while an awaiting caller of `execute` has that same error rethrown; the
un-awaited `immediate` effect keeps only the state update, so nothing
escapes the hook boundary. -/
theorem useAsync_failure_captured_in_state :
    ∀ (T : Type) (s : AsyncState T) (err : ThrownVal),
      s.mounted = true →
      ((s.execute (.error err)).1.error = some err.toErrorMessage
        ∧ (s.execute (.error err)).1.status = .error
        ∧ (s.execute (.error err)).2 = .error err.toErrorMessage
        ∧ s.immediateEffect true (.error err) = (s.execute (.error err)).1) := by
  intro T s err hm
  rw [AsyncState.execute]
  simp [hm, AsyncState.immediateEffect, AsyncState.execute]

/-- Witness for C3 on a fresh `useAsync Nat` hook and a thrown
`Error("boom")`. -/
theorem useAsync_failure_captured_in_state_witness :
    ((useAsync Nat).execute (.error (.errorObj "boom"))).1.error = some "boom"
    ∧ ((useAsync Nat).execute (.error (.errorObj "boom"))).1.status = .error
    ∧ ((useAsync Nat).execute (.error (.errorObj "boom"))).2 = .error "boom"
    ∧ (useAsync Nat).immediateEffect true (.error (.errorObj "boom"))
        = ((useAsync Nat).execute (.error (.errorObj "boom"))).1 :=
  useAsync_failure_captured_in_state Nat (useAsync Nat) (.errorObj "boom") rfl

/-- C6: for every delay `d` and every timed sequence of input values, the
debounced output equals the last value of the sequence at any time `d`
milliseconds (or more) after the last update; when no update follows the
mount, the output is the mounted value after `d` quiet milliseconds. -/
theorem useDebounce_settles_to_last_value :
    (∀ (T : Type) (delay : Nat) (v0 : T) (t0 : Nat) (pre : List (Nat × T))
        (tn : Nat) (vn : T) (t : Nat),
        tn + delay ≤ t →
        ((DebounceState.mount delay v0 t0).run delay (pre ++ [(tn, vn)])).read t = vn)
    ∧ (∀ (T : Type) (delay : Nat) (v0 : T) (t0 t : Nat),
        t0 + delay ≤ t →
        (DebounceState.mount delay v0 t0).read t = v0) := by
  constructor
  · intro T delay v0 t0 pre tn vn t ht
    rw [DebounceState.run, List.foldl_append]
    simp only [List.foldl_cons, List.foldl_nil]
    rw [DebounceState.read, DebounceState.update, DebounceState.elapse]
    simp [ht]
  · intro T delay v0 t0 t ht
    rw [DebounceState.read, DebounceState.mount, DebounceState.elapse]
    simp [ht]

/-- Witness for C6: delay 10, mount at 0 with value 1, updates at times
3, 5 with values 2, 3; read at time 15 = 5 + 10 gives 3; and the mount-only
hook read at time 10 gives 1. -/
theorem useDebounce_settles_to_last_value_witness :
    ((DebounceState.mount 10 (1 : Nat) 0).run 10 ([(3, 2)] ++ [(5, 3)])).read 15 = 3
    ∧ (DebounceState.mount 10 (1 : Nat) 0).read 10 = 1 :=
  ⟨useDebounce_settles_to_last_value.1 Nat 10 1 0 [(3, 2)] 5 3 15 (by decide),
   useDebounce_settles_to_last_value.2 Nat 10 1 0 10 (by decide)⟩

/-- C7: `useThrottle` with `{leading: true, trailing: false}` publishes the
first update arriving outside a window immediately (opening a delay window
at its arrival time) and leaves the state untouched — suppressing the
value — for every further update that arrives before the window elapses. -/
theorem useThrottle_leading_emits_window_suppresses :
    ∀ (T : Type) (delay : Nat) (init v1 v2 : T) (t1 t2 : Nat),
      t2 < t1 + delay →
      ((({ throttled := init } : ThrottleState T).update delay
          ⟨true, false⟩ v1 t1).throttled = v1
        ∧ (({ throttled := init } : ThrottleState T).update delay
            ⟨true, false⟩ v1 t1).windowStart = some t1
        ∧ ∀ s : ThrottleState T, s.windowStart = some t1 →
            s.update delay ⟨true, false⟩ v2 t2 = s) := by
  intro T delay init v1 v2 t1 t2 ht
  refine ⟨?_, ?_, fun s hs => ?_⟩
  · rw [ThrottleState.update, ThrottleState.inWindow]
    rfl
  · rw [ThrottleState.update, ThrottleState.inWindow]
    rfl
  · rw [ThrottleState.update, ThrottleState.inWindow, hs]
    simp [ht]

/-- Witness for C7: delay 100, first update (value 7) at t = 5 emits
immediately; a second update at t = 80 < 105 is suppressed. -/
theorem useThrottle_leading_emits_window_suppresses_witness :
    ((({ throttled := 0 } : ThrottleState Nat).update 100
        ⟨true, false⟩ 7 5).throttled = 7
      ∧ (({ throttled := 0 } : ThrottleState Nat).update 100
          ⟨true, false⟩ 7 5).windowStart = some 5
      ∧ ∀ s : ThrottleState Nat, s.windowStart = some 5 →
          s.update 100 ⟨true, false⟩ 9 80 = s) :=
  useThrottle_leading_emits_window_suppresses Nat 100 0 7 9 5 80 (by decide)

/-! ### Arithmetic of the decimal printer and parser -/

/-- Reading back the digit character of `n < 10`. -/
theorem digitVal_digitChar (n : Nat) (h : n < 10) :
    digitVal (digitChar n) = some n := by
  interval_cases n <;> rfl

/-- Every character `natDigits` emits is a decimal digit. -/
theorem natDigits_all_digits (n : Nat) :
    ∀ c ∈ natDigits n, isDigitChar c = true := by
  induction n using Nat.strong_induction_on with
  | _ n ih =>
    intro c hc
    rw [natDigits] at hc
    split at hc
    · rw [List.mem_singleton] at hc
      subst hc
      rw [isDigitChar, digitVal_digitChar n (by omega)]
      rfl
    · rcases List.mem_append.mp hc with hmem | hmem
      · have hdiv : n / 10 < n := Nat.div_lt_self (by omega) (by omega)
        exact ih (n / 10) hdiv c hmem
      · rw [List.mem_singleton] at hmem
        subst hmem
        rw [isDigitChar, digitVal_digitChar (n % 10) (Nat.mod_lt n (by omega))]
        rfl

/-- `natDigits` never produces the empty list. -/
theorem natDigits_ne_nil (n : Nat) : natDigits n ≠ [] := by
  rw [natDigits]
  split
  · simp
  · simp

/-- The digit list of `n` starts with a digit character. -/
theorem natDigits_cons (n : Nat) :
    ∃ c cs, natDigits n = c :: cs ∧ isDigitChar c = true := by
  rcases h : natDigits n with _ | ⟨c, cs⟩
  · exact absurd h (natDigits_ne_nil n)
  · refine ⟨c, cs, rfl, natDigits_all_digits n c ?_⟩
    rw [h]
    exact List.mem_cons_self c cs

/-- Consuming a run of digit characters accumulates their value. -/
theorem parseDigits_append (ds : List Char) (hds : ∀ c ∈ ds, isDigitChar c = true) :
    ∀ (acc : Nat) (rest : List Char),
      parseDigits acc (ds ++ rest)
        = parseDigits (ds.foldl (fun a c => a * 10 + (digitVal c).getD 0) acc) rest := by
  induction ds with
  | nil => intro acc rest; rfl
  | cons c cs ih =>
    intro acc rest
    have hc := hds c (List.mem_cons_self c cs)
    rw [isDigitChar] at hc
    rcases hd : digitVal c with _ | d
    · rw [hd] at hc; cases hc
    · rw [List.cons_append, parseDigits, hd, List.foldl_cons, hd]
      exact ih (fun x hx => hds x (List.mem_cons_of_mem c hx)) (acc * 10 + d) rest

/-- `parseDigits` stops at a non-digit boundary. -/
theorem parseDigits_stop (acc : Nat) (rest : List Char)
    (h : headNotDigit rest = true) : parseDigits acc rest = (acc, rest) := by
  cases rest with
  | nil => rfl
  | cons c cs =>
    rw [headNotDigit] at h
    rw [parseDigits]
    rcases hd : digitVal c with _ | d
    · rfl
    · rw [isDigitChar, hd] at h
      cases h

/-- Folding the accumulator step over the digits of `n` computes `n` (on top
of the shifted accumulator). -/
theorem natDigits_foldl (n : Nat) :
    ∀ acc : Nat,
      (natDigits n).foldl (fun a c => a * 10 + (digitVal c).getD 0) acc
        = acc * 10 ^ (natDigits n).length + n := by
  induction n using Nat.strong_induction_on with
  | _ n ih =>
    intro acc
    rw [natDigits]
    split
    · rename_i h
      rw [List.foldl_cons, List.foldl_nil, digitVal_digitChar n h]
      simp
    · rename_i h
      rw [List.foldl_append, ih (n / 10) (Nat.div_lt_self (by omega) (by omega)) acc,
        List.foldl_cons, List.foldl_nil, digitVal_digitChar (n % 10) (Nat.mod_lt n (by omega))]
      rw [List.length_append, List.length_cons, List.length_nil]
      have hdm : n / 10 * 10 + n % 10 = n := by omega
      calc (acc * 10 ^ (natDigits (n / 10)).length + n / 10) * 10
            + (some (n % 10)).getD 0
          = acc * (10 ^ (natDigits (n / 10)).length * 10) + (n / 10 * 10 + n % 10) := by
            rw [Option.getD_some]; ring
        _ = acc * 10 ^ ((natDigits (n / 10)).length + (0 + 1)) + n := by
            rw [hdm, pow_succ]

/-- A digit character is none of the structural lead characters of JSON. -/
theorem isDigitChar_ne (c : Char) (h : isDigitChar c = true) :
    c ≠ 'n' ∧ c ≠ 't' ∧ c ≠ 'f' ∧ c ≠ '"' ∧ c ≠ '[' ∧ c ≠ '\x7b'
      ∧ c ≠ ']' ∧ c ≠ '\x7d' ∧ c ≠ ',' ∧ c ≠ ':' ∧ c ≠ '-' := by
  rw [isDigitChar, digitVal] at h
  split at h
  · rename_i hcond
    refine ⟨?_, ?_, ?_, ?_, ?_, ?_, ?_, ?_, ?_, ?_, ?_⟩ <;>
      (rintro rfl; revert hcond; decide)
  · cases h

/-- Parsing the decimal print of an integer at a non-digit boundary. -/
theorem parseNumber_intChars (n : Int) (rest : List Char)
    (hrest : headNotDigit rest = true) :
    parseNumber (intChars n ++ rest) = some (n, rest) := by
  cases n with
  | ofNat m =>
    rcases natDigits_cons m with ⟨c, cs, hcs, hc⟩
    rw [intChars, hcs, List.cons_append]
    simp only [parseNumber]
    rw [if_neg (isDigitChar_ne c hc).2.2.2.2.2.2.2.2.2.2, if_pos hc]
    have h1 : parseDigits 0 (c :: (cs ++ rest)) = (m, rest) := by
      rw [show c :: (cs ++ rest) = (c :: cs) ++ rest from rfl, ← hcs,
        parseDigits_append (natDigits m) (natDigits_all_digits m) 0 rest,
        natDigits_foldl m 0, parseDigits_stop]
      · norm_num
      · exact hrest
    rw [h1]
    simp [Int.ofNat_eq_natCast]
  | negSucc m =>
    rcases natDigits_cons (m + 1) with ⟨c, cs, hcs, hc⟩
    have h1 : parseDigits 0 (c :: (cs ++ rest)) = (m + 1, rest) := by
      rw [show c :: (cs ++ rest) = (c :: cs) ++ rest from rfl, ← hcs,
        parseDigits_append (natDigits (m + 1)) (natDigits_all_digits (m + 1)) 0 rest,
        natDigits_foldl (m + 1) 0, parseDigits_stop]
      · norm_num
      · exact hrest
    rw [intChars, List.cons_append]
    simp only [parseNumber]
    rw [if_pos trivial, hcs, List.cons_append]
    dsimp only
    rw [if_pos hc, h1]
    simp [Int.negSucc_eq]

/-! ### Round-trip of the string escaper -/

/-- Parsing the escaped body of a string literal recovers the characters. -/
theorem parseStringBody_escapeChars (s : List Char) :
    ∀ rest : List Char,
      parseStringBody (escapeChars s ++ ('"' :: rest)) = some (s, rest) := by
  induction s with
  | nil =>
    intro rest
    rw [escapeChars, List.nil_append, parseStringBody.eq_def]
    simp
  | cons c cs ih =>
    intro rest
    rw [escapeChars, escapeChar]
    by_cases h1 : c = '"'
    · subst h1
      simp [parseStringBody, unescapeChar, ih rest]
    · rw [if_neg h1]
      by_cases h2 : c = '\\'
      · subst h2
        simp [parseStringBody, unescapeChar, ih rest]
      · rw [if_neg h2]
        by_cases h3 : c = '\n'
        · subst h3
          simp [parseStringBody, unescapeChar, ih rest]
        · rw [if_neg h3]
          by_cases h4 : c = '\t'
          · subst h4
            simp [parseStringBody, unescapeChar, ih rest]
          · rw [if_neg h4]
            by_cases h5 : c = '\r'
            · subst h5
              simp [parseStringBody, unescapeChar, ih rest]
            · rw [if_neg h5]
              rw [List.cons_append, List.nil_append, parseStringBody.eq_def]
              simp [h1, h2, ih rest]

/-! ### Shape facts about the printer -/

/-- Any list value has positive `sizeOf`. -/
theorem list_sizeOf_pos {α : Type} [SizeOf α] (l : List α) : 0 < sizeOf l := by
  cases l <;> simp_arith

/-- Any JSON value has positive `sizeOf`. -/
theorem jsonValue_sizeOf_pos (v : JsonValue) : 0 < sizeOf v := by
  cases v <;> simp_arith

/-- Every JSON value has size at least one. -/
theorem jsize_pos (v : JsonValue) : 1 ≤ jsize v := by
  cases v <;> simp [jsize]

/-- The print of a value starts with a character that closes no bracket:
never `]`, `\x7d` or `,`. -/
theorem stringifyChars_cons (v : JsonValue) :
    ∃ c cs, stringifyChars v = c :: cs
      ∧ c ≠ ']' ∧ c ≠ '\x7d' ∧ c ≠ ',' := by
  cases v with
  | null =>
    exact ⟨'n', ['u', 'l', 'l'], by simp [stringifyChars], by decide, by decide, by decide⟩
  | bool b =>
    cases b with
    | true =>
      exact ⟨'t', ['r', 'u', 'e'], by simp [stringifyChars], by decide, by decide, by decide⟩
    | false =>
      exact ⟨'f', ['a', 'l', 's', 'e'], by simp [stringifyChars], by decide, by decide, by decide⟩
  | num n =>
    cases n with
    | ofNat m =>
      rcases natDigits_cons m with ⟨c, cs, hcs, hc⟩
      have hne := isDigitChar_ne c hc
      exact ⟨c, cs, by simp [stringifyChars, intChars, hcs],
        hne.2.2.2.2.2.2.1, hne.2.2.2.2.2.2.2.1, hne.2.2.2.2.2.2.2.2.1⟩
    | negSucc m =>
      exact ⟨'-', natDigits (m + 1), by simp [stringifyChars, intChars],
        by decide, by decide, by decide⟩
  | str s =>
    exact ⟨'"', escapeChars s.data ++ ['"'], by simp [stringifyChars],
      by decide, by decide, by decide⟩
  | arr es =>
    cases es with
    | nil => exact ⟨'[', [']'], by simp [stringifyChars], by decide, by decide, by decide⟩
    | cons e es' =>
      exact ⟨'[', stringifyElems e es', by simp [stringifyChars],
        by decide, by decide, by decide⟩
  | obj fs =>
    cases fs with
    | nil => exact ⟨'\x7b', ['\x7d'], by simp [stringifyChars], by decide, by decide, by decide⟩
    | cons f fs' =>
      rcases f with ⟨k, v⟩
      exact ⟨'\x7b', stringifyFields k v fs', by simp [stringifyChars],
        by decide, by decide, by decide⟩

/-! ### The parser inverts the printer -/

/-- The print of a non-empty element list starts with a character that is
not `]`. -/
theorem stringifyElems_cons (e : JsonValue) (es : List JsonValue) :
    ∃ c cs, stringifyElems e es = c :: cs
      ∧ c ≠ ']' ∧ c ≠ '\x7d' ∧ c ≠ ',' := by
  rcases stringifyChars_cons e with ⟨c, cs0, hcs, h1, h2, h3⟩
  cases es with
  | nil =>
    refine ⟨c, cs0 ++ [']'], ?_, h1, h2, h3⟩
    simp only [stringifyElems]
    rw [hcs, List.cons_append]
  | cons e2 es2 =>
    refine ⟨c, cs0 ++ (',' :: stringifyElems e2 es2), ?_, h1, h2, h3⟩
    simp only [stringifyElems]
    rw [hcs, List.cons_append]

/-- The print of a non-empty field list starts with the key-opening quote. -/
theorem stringifyFields_cons (k : String) (v : JsonValue)
    (fs : List (String × JsonValue)) :
    ∃ cs, stringifyFields k v fs = '"' :: cs := by
  cases fs with
  | nil =>
    refine ⟨(escapeChars k.data ++ ['"', ':']) ++ stringifyChars v ++ ['\x7d'], ?_⟩
    simp only [stringifyFields, List.cons_append]
  | cons f2 fs2 =>
    rcases f2 with ⟨k2, v2⟩
    refine ⟨(escapeChars k.data ++ ['"', ':']) ++ stringifyChars v
      ++ (',' :: stringifyFields k2 v2 fs2), ?_⟩
    simp only [stringifyFields, List.cons_append]

/-- Fuel-indexed round trip: with fuel at least the size of the value, the
parser consumes exactly the printed characters (array elements and object
fields included, with their separators). -/
theorem parse_stringify_aux : ∀ fuel : Nat,
    (∀ (v : JsonValue) (rest : List Char), jsize v ≤ fuel →
      headNotDigit rest = true →
      parseVal fuel (stringifyChars v ++ rest) = some (v, rest))
    ∧ (∀ (e : JsonValue) (es : List JsonValue) (rest : List Char),
        1 + jsize e + jsizeList es ≤ fuel →
        parseElems fuel (stringifyElems e es ++ rest) = some (e :: es, rest))
    ∧ (∀ (k : String) (v : JsonValue) (fs : List (String × JsonValue))
        (rest : List Char),
        1 + jsize v + jsizeFields fs ≤ fuel →
        parseFields fuel (stringifyFields k v fs ++ rest)
          = some ((k, v) :: fs, rest)) := by
  intro fuel
  induction fuel with
  | zero =>
    exact ⟨fun v rest hv _ => absurd hv (by have := jsize_pos v; omega),
      fun e es rest h => absurd h (by omega),
      fun k v fs rest h => absurd h (by omega)⟩
  | succ fuel ih =>
    obtain ⟨ihV, ihE, ihF⟩ := ih
    refine ⟨?_, ?_, ?_⟩
    · intro v rest hv hrest
      cases v with
      | null =>
        rw [show stringifyChars .null = ['n', 'u', 'l', 'l'] from by
          simp [stringifyChars]]
        simp [parseVal]
      | bool b =>
        cases b with
        | true =>
          rw [show stringifyChars (.bool true) = ['t', 'r', 'u', 'e'] from by
            simp [stringifyChars]]
          simp [parseVal]
        | false =>
          rw [show stringifyChars (.bool false) = ['f', 'a', 'l', 's', 'e'] from by
            simp [stringifyChars]]
          simp [parseVal]
      | num n =>
        rw [show stringifyChars (.num n) = intChars n from by simp [stringifyChars]]
        have hpn := parseNumber_intChars n rest hrest
        cases n with
        | ofNat m =>
          rcases natDigits_cons m with ⟨c, cs, hcs, hc⟩
          have hne := isDigitChar_ne c hc
          rw [intChars, hcs, List.cons_append] at hpn ⊢
          simp only [parseVal]
          rw [if_neg hne.1, if_neg hne.2.1, if_neg hne.2.2.1, if_neg hne.2.2.2.1,
            if_neg hne.2.2.2.2.1, if_neg hne.2.2.2.2.2.1, hpn]
        | negSucc m =>
          rw [intChars, List.cons_append] at hpn ⊢
          simp only [parseVal]
          rw [if_neg (by decide), if_neg (by decide), if_neg (by decide),
            if_neg (by decide), if_neg (by decide), if_neg (by decide), hpn]
      | str s =>
        rw [show stringifyChars (.str s) = '"' :: (escapeChars s.data ++ ['"'])
            from by simp [stringifyChars]]
        rw [List.cons_append, List.append_assoc,
          show ['"'] ++ rest = '"' :: rest from rfl]
        simp only [parseVal]
        rw [if_neg (by decide), if_neg (by decide), if_neg (by decide), if_pos trivial,
          parseStringBody_escapeChars s.data rest]
      | arr es =>
        cases es with
        | nil =>
          rw [show stringifyChars (.arr []) = ['[', ']'] from by simp [stringifyChars]]
          simp [parseVal]
        | cons e es' =>
          have hsz : 1 + jsize e + jsizeList es' ≤ fuel := by
            simp only [jsize, jsizeList] at hv
            omega
          rw [show stringifyChars (.arr (e :: es')) = '[' :: stringifyElems e es'
              from by simp [stringifyChars]]
          rw [List.cons_append]
          simp only [parseVal]
          rw [if_neg (by decide), if_neg (by decide), if_neg (by decide),
            if_neg (by decide), if_pos trivial]
          rcases stringifyElems_cons e es' with ⟨c, cs, hcs, hc1, hc2, hc3⟩
          have htail : stringifyElems e es' ++ rest = c :: (cs ++ rest) := by
            rw [hcs, List.cons_append]
          rw [htail]
          dsimp only
          rw [if_neg hc1, ← htail, ihE e es' rest hsz]
      | obj fs =>
        cases fs with
        | nil =>
          rw [show stringifyChars (.obj []) = ['\x7b', '\x7d'] from by
            simp [stringifyChars]]
          simp [parseVal]
        | cons f fs' =>
          rcases f with ⟨k, v⟩
          have hsz : 1 + jsize v + jsizeFields fs' ≤ fuel := by
            simp only [jsize, jsizeFields] at hv
            omega
          rw [show stringifyChars (.obj ((k, v) :: fs')) = '\x7b' :: stringifyFields k v fs'
              from by simp [stringifyChars]]
          rw [List.cons_append]
          simp only [parseVal]
          rw [if_neg (by decide), if_neg (by decide), if_neg (by decide),
            if_neg (by decide), if_neg (by decide), if_pos trivial]
          rcases stringifyFields_cons k v fs' with ⟨fcs, hfcs⟩
          have htail : stringifyFields k v fs' ++ rest = '"' :: (fcs ++ rest) := by
            rw [hfcs, List.cons_append]
          rw [htail]
          dsimp only
          rw [if_neg (by decide), ← htail, ihF k v fs' rest hsz]
    · intro e es rest h
      have hve : jsize e ≤ fuel := by
        have := jsize_pos e
        omega
      cases es with
      | nil =>
        have h1 : stringifyElems e [] ++ rest = stringifyChars e ++ (']' :: rest) := by
          simp only [stringifyElems]
          rw [List.append_assoc]
          rfl
        rw [parseElems, h1, ihV e (']' :: rest) hve (by rfl)]
        rfl
      | cons e2 es2 =>
        have hsz2 : 1 + jsize e2 + jsizeList es2 ≤ fuel := by
          simp only [jsizeList] at h
          have := jsize_pos e
          omega
        have h1 : stringifyElems e (e2 :: es2) ++ rest
            = stringifyChars e ++ (',' :: (stringifyElems e2 es2 ++ rest)) := by
          simp only [stringifyElems]
          rw [List.append_assoc]
          rfl
        rw [parseElems, h1, ihV e _ hve (by rfl)]
        simp [ihE e2 es2 rest hsz2]
    · intro k v fs rest h
      have hvv : jsize v ≤ fuel := by omega
      cases fs with
      | nil =>
        have h1 : stringifyFields k v [] ++ rest
            = '"' :: (escapeChars k.data
                ++ ('"' :: (':' :: (stringifyChars v ++ ('\x7d' :: rest))))) := by
          simp only [stringifyFields]
          simp
        rw [h1]
        simp only [parseFields]
        rw [parseStringBody_escapeChars k.data
          (':' :: (stringifyChars v ++ ('\x7d' :: rest)))]
        simp [ihV v ('\x7d' :: rest) hvv (by rfl)]
      | cons f2 fs2 =>
        rcases f2 with ⟨k2, v2⟩
        have hsz2 : 1 + jsize v2 + jsizeFields fs2 ≤ fuel := by
          simp only [jsizeFields] at h
          have := jsize_pos v
          omega
        have h1 : stringifyFields k v ((k2, v2) :: fs2) ++ rest
            = '"' :: (escapeChars k.data
                ++ ('"' :: (':' :: (stringifyChars v
                    ++ (',' :: (stringifyFields k2 v2 fs2 ++ rest)))))) := by
          simp only [stringifyFields]
          simp
        rw [h1]
        simp only [parseFields]
        rw [parseStringBody_escapeChars k.data
          (':' :: (stringifyChars v ++ (',' :: (stringifyFields k2 v2 fs2 ++ rest))))]
        simp [ihV v (',' :: (stringifyFields k2 v2 fs2 ++ rest)) hvv rfl,
          ihF k2 v2 fs2 rest hsz2]

/-- The size measure is bounded by the printed length, so the fuel derived
from the string suffices. -/
theorem jsize_le_len_aux : ∀ N : Nat,
    (∀ v : JsonValue, sizeOf v ≤ N → jsize v ≤ (stringifyChars v).length)
    ∧ (∀ (e : JsonValue) (es : List JsonValue), sizeOf e + sizeOf es ≤ N →
        1 + jsize e + jsizeList es ≤ (stringifyElems e es).length)
    ∧ (∀ (k : String) (v : JsonValue) (fs : List (String × JsonValue)),
        sizeOf v + sizeOf fs ≤ N →
        1 + jsize v + jsizeFields fs ≤ (stringifyFields k v fs).length) := by
  intro N
  induction N with
  | zero =>
    refine ⟨fun v hv => absurd hv (by have := jsonValue_sizeOf_pos v; omega),
      fun e es h => absurd h (by have := jsonValue_sizeOf_pos e; omega),
      fun k v fs h => absurd h (by have := jsonValue_sizeOf_pos v; omega)⟩
  | succ N ih =>
    obtain ⟨ihV, ihE, ihF⟩ := ih
    refine ⟨?_, ?_, ?_⟩
    · intro v hv
      cases v with
      | null => simp [jsize, stringifyChars]
      | bool b => cases b <;> simp [jsize, stringifyChars]
      | num n =>
        simp only [jsize, stringifyChars]
        cases n with
        | ofNat m =>
          rcases natDigits_cons m with ⟨c, cs, hcs, _⟩
          rw [intChars, hcs]
          simp only [List.length_cons]
          omega
        | negSucc m =>
          rw [intChars]
          simp only [List.length_cons]
          omega
      | str s => simp [jsize, stringifyChars]
      | arr es =>
        cases es with
        | nil => simp [jsize, jsizeList, stringifyChars]
        | cons e es' =>
          have hb : sizeOf e + sizeOf es' ≤ N := by
            simp only [JsonValue.arr.sizeOf_spec, List.cons.sizeOf_spec] at hv
            omega
          have := ihE e es' hb
          simp only [jsize, jsizeList] at *
          simp only [stringifyChars, List.length_cons]
          omega
      | obj fs =>
        cases fs with
        | nil => simp [jsize, jsizeFields, stringifyChars]
        | cons f fs' =>
          rcases f with ⟨k, v⟩
          have hb : sizeOf v + sizeOf fs' ≤ N := by
            simp only [JsonValue.obj.sizeOf_spec, List.cons.sizeOf_spec,
              Prod.mk.sizeOf_spec] at hv
            omega
          have := ihF k v fs' hb
          simp only [jsize, jsizeFields] at *
          simp only [stringifyChars, List.length_cons]
          omega
    · intro e es h
      have hbe : sizeOf e ≤ N := by
        have := list_sizeOf_pos es
        omega
      have h1 := ihV e hbe
      cases es with
      | nil =>
        simp only [stringifyElems, jsizeList, List.length_append]
        simp
        omega
      | cons e2 es2 =>
        have hb2 : sizeOf e2 + sizeOf es2 ≤ N := by
          simp only [List.cons.sizeOf_spec] at h
          have := jsonValue_sizeOf_pos e
          omega
        have h2 := ihE e2 es2 hb2
        simp only [stringifyElems, jsizeList, List.length_append, List.length_cons]
        omega
    · intro k v fs h
      have hbv : sizeOf v ≤ N := by
        have := list_sizeOf_pos fs
        omega
      have h1 := ihV v hbv
      cases fs with
      | nil =>
        simp only [stringifyFields, jsizeFields, List.length_append,
          List.length_cons]
        simp
        omega
      | cons f2 fs2 =>
        rcases f2 with ⟨k2, v2⟩
        have hb2 : sizeOf v2 + sizeOf fs2 ≤ N := by
          simp only [List.cons.sizeOf_spec, Prod.mk.sizeOf_spec] at h
          have := jsonValue_sizeOf_pos v
          omega
        have h2 := ihF k2 v2 fs2 hb2
        simp only [stringifyFields, jsizeFields, List.length_append,
          List.length_cons]
        omega

/-- The JSON print of any value round-trips through the parser. -/
theorem JSON.parse_stringify (v : JsonValue) :
    JSON.parse (JSON.stringify v) = some v := by
  rw [JSON.stringify, JSON.parse]
  have hlen : jsize v ≤ (stringifyChars v).length :=
    (jsize_le_len_aux (sizeOf v)).1 v (le_refl _)
  have h := (parse_stringify_aux ((String.mk (stringifyChars v)).data.length + 1)).1
    v [] (by simpa using by omega) rfl
  rw [List.append_nil] at h
  rw [show (String.mk (stringifyChars v)).data = stringifyChars v from rfl] at h ⊢
  rw [h]

/-- The JSON print of any value is a non-empty string. -/
theorem JSON.stringify_ne_empty (v : JsonValue) : JSON.stringify v ≠ "" := by
  rcases stringifyChars_cons v with ⟨c, cs, hcs, _⟩
  rw [JSON.stringify, hcs]
  intro habs
  have := congrArg String.data habs
  simp at this

/-- C2: on a healthy storage, `setValue(V)` updates the hook's value to `V`
and stores `JSON.stringify(V)` under the hook's key; the stored string
round-trips through `JSON.parse`, so re-initialising the hook from the same
storage (a simulated reload, whatever default it is given) reads back `V`;
and `removeValue()` resets the value to the supplied initial default and
clears the key. -/
theorem useLocalStorage_roundtrip_and_remove :
    ∀ (store : BrowserStorage) (h : LocalStorageHook) (V initB : JsonValue),
      store.failing = false →
      ((h.setStoredValue store (.plain V)).1.value = V
        ∧ (h.setStoredValue store (.plain V)).2.items h.key
            = some (JSON.stringify V)
        ∧ JSON.parse (JSON.stringify V) = some V
        ∧ (useLocalStorage (h.setStoredValue store (.plain V)).2 h.key initB).value = V
        ∧ (h.removeStoredValue store).1.value = h.initialValue
        ∧ (h.removeStoredValue store).2.items h.key = none) := by
  intro store h V initB hf
  refine ⟨?_, ?_, JSON.parse_stringify V, ?_, ?_, ?_⟩
  · simp [LocalStorageHook.setStoredValue, BrowserStorage.setItem, hf]
  · simp [LocalStorageHook.setStoredValue, BrowserStorage.setItem, hf]
  · simp [useLocalStorage, LocalStorageHook.setStoredValue,
      BrowserStorage.setItem, BrowserStorage.getItem, hf,
      JSON.parse_stringify V, JSON.stringify_ne_empty V]
  · simp [LocalStorageHook.removeStoredValue, BrowserStorage.removeItem, hf]
  · simp [LocalStorageHook.removeStoredValue, BrowserStorage.removeItem, hf]

/-- Witness for C2: a fresh hook on the empty healthy storage, writing the
number 1 under key `k`. -/
theorem useLocalStorage_roundtrip_and_remove_witness :
    (((useLocalStorage emptyStore "k" .null).setStoredValue emptyStore
        (.plain (.num 1))).1.value = .num 1
      ∧ ((useLocalStorage emptyStore "k" .null).setStoredValue emptyStore
          (.plain (.num 1))).2.items (useLocalStorage emptyStore "k" .null).key
          = some (JSON.stringify (.num 1))
      ∧ JSON.parse (JSON.stringify (.num 1)) = some (.num 1)
      ∧ (useLocalStorage
          ((useLocalStorage emptyStore "k" .null).setStoredValue emptyStore
            (.plain (.num 1))).2
          (useLocalStorage emptyStore "k" .null).key .null).value = .num 1
      ∧ ((useLocalStorage emptyStore "k" .null).removeStoredValue emptyStore).1.value
          = (useLocalStorage emptyStore "k" .null).initialValue
      ∧ ((useLocalStorage emptyStore "k" .null).removeStoredValue emptyStore).2.items
          (useLocalStorage emptyStore "k" .null).key = none) :=
  useLocalStorage_roundtrip_and_remove emptyStore
    (useLocalStorage emptyStore "k" .null) (.num 1) .null rfl

/-- C4 counterexample: a cross-tab removal event (newValue `null`) for the
hook's own key leaves the hook's value untouched, so after the event the
hook's state does not match what is stored under the key — the claim fails
for removal notifications. -/
theorem handleStorageChange_removal_not_synced :
    removalEvent.key
        = some (useLocalStorage seededStore "theme" JsonValue.null).key
    ∧ (useLocalStorage seededStore "theme" JsonValue.null).handleStorageChange
        removalEvent
        = useLocalStorage seededStore "theme" JsonValue.null
    ∧ ¬ reflectsStored
        ((useLocalStorage seededStore "theme" JsonValue.null).handleStorageChange
          removalEvent)
        removalEvent.newValue := by
  refine ⟨rfl, rfl, ?_⟩
  rintro ⟨s, hs, -⟩
  simp [removalEvent] at hs

/-- C4 (amended): the storage listener keeps the hook in sync exactly for
events carrying a parseable new value: if the event's key is the hook's key
and its newValue is a string that `JSON.parse` accepts, the hook's value
becomes the parsed value (so the state matches the stored string); removal
events (`newValue` null) and unparseable values leave the state unchanged. -/
theorem handleStorageChange_sync :
    ∀ (h : LocalStorageHook) (e : StorageEvent),
      (∀ s v, e.key = some h.key → e.newValue = some s → JSON.parse s = some v →
        (h.handleStorageChange e).value = v
          ∧ reflectsStored (h.handleStorageChange e) e.newValue)
      ∧ (e.key = some h.key → e.newValue = none → h.handleStorageChange e = h)
      ∧ (∀ s, e.key = some h.key → e.newValue = some s → JSON.parse s = none →
          h.handleStorageChange e = h) := by
  intro h e
  refine ⟨?_, ?_, ?_⟩
  · intro s v hk hnv hp
    have hval : (h.handleStorageChange e).value = v := by
      rw [LocalStorageHook.handleStorageChange, if_pos hk, hnv]
      dsimp only
      rw [hp]
    exact ⟨hval, ⟨s, hnv, by rw [hp, hval]⟩⟩
  · intro hk hnv
    rw [LocalStorageHook.handleStorageChange, if_pos hk, hnv]
  · intro s hk hnv hp
    rw [LocalStorageHook.handleStorageChange, if_pos hk, hnv]
    dsimp only
    rw [hp]

/-- Witness for C4 (amended): an update event storing `"0"` under `theme`
sets the hook's value to the number 0; a removal event and an unparseable
event leave the hook unchanged. -/
theorem handleStorageChange_sync_witness :
    (((useLocalStorage seededStore "theme" JsonValue.null).handleStorageChange
        { key := some "theme", newValue := some "0" }).value = JsonValue.num 0
      ∧ reflectsStored
          ((useLocalStorage seededStore "theme" JsonValue.null).handleStorageChange
            { key := some "theme", newValue := some "0" })
          (StorageEvent.newValue { key := some "theme", newValue := some "0" }))
    ∧ (useLocalStorage seededStore "theme" JsonValue.null).handleStorageChange
        { key := some "theme", newValue := none }
        = useLocalStorage seededStore "theme" JsonValue.null
    ∧ (useLocalStorage seededStore "theme" JsonValue.null).handleStorageChange
        { key := some "theme", newValue := some "?" }
        = useLocalStorage seededStore "theme" JsonValue.null :=
  ⟨(handleStorageChange_sync (useLocalStorage seededStore "theme" JsonValue.null)
      { key := some "theme", newValue := some "0" }).1 "0" (JsonValue.num 0)
      rfl rfl rfl,
   (handleStorageChange_sync (useLocalStorage seededStore "theme" JsonValue.null)
      { key := some "theme", newValue := none }).2.1 rfl rfl,
   (handleStorageChange_sync (useLocalStorage seededStore "theme" JsonValue.null)
      { key := some "theme", newValue := some "?" }).2.2 "?" rfl rfl rfl⟩

/-- C5 counterexample: when storage access throws during `setValue`, the
hook does not fall back to the supplied default — the React state was
already updated before `setItem` threw, so the hook keeps the new value
(the number 1, not the default `null`). -/
theorem useLocalStorage_setValue_failure_keeps_new_value :
    ((useLocalStorage failingStore "k" JsonValue.null).setStoredValue failingStore
        (.plain (JsonValue.num 1))).1.value = JsonValue.num 1
    ∧ JsonValue.num 1 ≠ JsonValue.null := by
  exact ⟨rfl, fun habs => by cases habs⟩

/-- C5 (amended): storage-access failures are caught (each operation returns
normally): a failing initial read falls back to the supplied default; a
failing `setValue` still updates the in-memory value to the requested one
while the store is untouched; a failing `removeValue` leaves both the hook
state and the store unchanged (no reset to the default). -/
theorem useLocalStorage_failures_caught :
    ∀ (store : BrowserStorage) (key : String) (init V : JsonValue)
      (h : LocalStorageHook),
      store.failing = true →
      ((useLocalStorage store key init).value = init
        ∧ h.setStoredValue store (.plain V) = ({ h with value := V }, store)
        ∧ h.removeStoredValue store = (h, store)) := by
  intro store key init V h hf
  refine ⟨?_, ?_, ?_⟩
  · simp [useLocalStorage, BrowserStorage.getItem, hf]
  · simp [LocalStorageHook.setStoredValue, BrowserStorage.setItem, hf]
  · simp [LocalStorageHook.removeStoredValue, BrowserStorage.removeItem, hf]

/-- Witness for C5 (amended) on the failing store. -/
theorem useLocalStorage_failures_caught_witness :
    (useLocalStorage failingStore "k" JsonValue.null).value = JsonValue.null
    ∧ (useLocalStorage emptyStore "k" JsonValue.null).setStoredValue failingStore
        (.plain (JsonValue.bool true))
        = ({ useLocalStorage emptyStore "k" JsonValue.null with
              value := JsonValue.bool true }, failingStore)
    ∧ (useLocalStorage emptyStore "k" JsonValue.null).removeStoredValue failingStore
        = (useLocalStorage emptyStore "k" JsonValue.null, failingStore) :=
  useLocalStorage_failures_caught failingStore "k" JsonValue.null
    (JsonValue.bool true) (useLocalStorage emptyStore "k" JsonValue.null) rfl
